import Mathlib

/-!
Verification of the credential cache of `tolino_uploader.py` and the boolean
configuration parser of `env.py`.

The embedding models:
* file contents as lists of natural numbers (byte sequences);
* the `cryptography.fernet.Fernet` authenticated symmetric cipher by an
  idealized executable cipher (`fernetEncrypt` / `fernetDecrypt`) realizing
  the library's documented functional contract: decryption under a key
  succeeds, and returns the original plaintext, exactly on untampered
  ciphertexts produced under that same key, and fails (raises, i.e. returns
  `none`) on any other input — in particular under a different key and on any
  single-byte modification of a ciphertext.  Secrecy is not modelled, only
  the functional encrypt/decrypt behaviour that the source relies on;
* decoded JSON documents by the `PyValue` type of Python values that
  `json.loads` can produce: `None`, booleans, ints, floats, strings (as
  sequences of Unicode code points, in which lone surrogates from `\uXXXX`
  escapes may occur), lists, and string-keyed dicts;
* `json.loads` by the executable recursive-descent parser `pyLoads` over the
  JSON grammar as CPython's `json` module accepts it: optional whitespace,
  all value forms including nested arrays and objects, the full string
  escape repertoire (`\" \\ \/ \b \f \n \r \t \uXXXX` with surrogate-pair
  combination), the JSON number grammar (ints and floats, with the
  `NaN`/`Infinity`/`-Infinity` extensions), rejection of invalid escapes and
  of raw control characters in strings (`strict=True`), last-wins duplicate
  object keys, and rejection of trailing data.  Recursion is fuelled by the
  input length, which bounds nesting depth and member counts, so fuel never
  causes a spurious failure;
* `json.dumps` on the one value the source ever serializes — the
  `{"username": ..., "password": ...}` dict of two strings — by `jsonDumps`,
  which emits the same `{"k": "v", ...}` layout with quotation marks,
  backslashes and control characters escaped.  (Python additionally escapes
  non-ASCII characters under its default `ensure_ascii`; that changes only
  which of several equivalent parseable spellings is written to disk, not
  the decoded value, and no claim concerns the wire bytes themselves.)
  Floats are carried as their parsed decimal components; IEEE rounding is
  not modelled and no claim depends on float values;
* `str.encode("utf-8")` / `bytes.decode("utf-8")` by the codepoint
  embedding of characters into naturals, which like UTF-8 is injective on
  strings and partial in the decoding direction;
* I/O and randomness nondeterminism by explicit environment parameters
  (`KeyLoadEnv`, `CredLoadEnv`, `WriteOutcome`) injecting the possible
  outcomes of each fallible primitive: a file read may raise, a file write
  may raise before opening (path unwritable) or during writing (after
  `open(..., "wb")` has already truncated the file, leaving a prefix);
* Python exceptions by `Except`-valued operations (`..E` versions) whose
  `try`/`except` structure mirrors the source; an `Except.error` outcome of
  a public operation is an exception propagating to the caller.  In
  particular `has_credentialsE` raises (`AttributeError`) when the cached
  `_credentials` is not a dict, since line 87 of the source calls `.get` on
  it outside any `try`.
-/

/-- Idealized model of `Fernet(key).encrypt(pt)`: the ciphertext determines
the key it was produced under and the plaintext, and carries a checksum over
both.  Stands in for the token layout `version ‖ timestamp ‖ iv ‖ ct ‖ hmac`
of the real library, of which the source uses no structure. -/
def fernetEncrypt (key pt : List Nat) : List Nat :=
  key.length :: (key ++ pt ++ [key.sum + pt.sum])

/-- Idealized model of `Fernet(key).decrypt(ct)`: authenticated decryption,
succeeding exactly when `ct` is a well-formed encryption under `key` (the
`InvalidToken` exception of the library is `none` here). -/
def fernetDecrypt (key ct : List Nat) : Option (List Nat) :=
  if ct = fernetEncrypt key ((ct.drop (key.length + 1)).dropLast)
  then some ((ct.drop (key.length + 1)).dropLast) else none

/-- Model of `str.encode("utf-8")`: the code-point embedding of characters
into naturals (injective on strings, as UTF-8 is). -/
def encodeStr (l : List Char) : List Nat := l.map Char.toNat

/-- Valid Unicode scalar values, the image of `encodeStr` on characters. -/
def validCp (n : Nat) : Bool :=
  decide (n < 55296) || (decide (57343 < n) && decide (n < 1114112))

/-- Model of `bytes.decode("utf-8")`: fails (`UnicodeDecodeError`, here
`none`) unless every element is a valid Unicode scalar value. -/
def decodeBytes (l : List Nat) : Option (List Char) :=
  if l.all validCp then some (l.map Char.ofNat) else none

/-- The quotation mark character. -/
def qm : Char := Char.ofNat 34

/-- The backslash character. -/
def bsl : Char := Char.ofNat 92

/-- The opening curly bracket character. -/
def lbr : Char := Char.ofNat 123

/-- The closing curly bracket character. -/
def rbr : Char := Char.ofNat 125

/-- The opening square bracket character. -/
def lsq : Char := Char.ofNat 91

/-- The closing square bracket character. -/
def rsq : Char := Char.ofNat 93

/-- The Python values `json.loads` can produce: `None`, bools, ints, floats
(carried as sign, integer digits, fraction digits and exponent of the
parsed decimal literal; `NaN` and signed infinities separately), strings as
sequences of Unicode code points (lone surrogates allowed, as in Python),
lists, and string-keyed dicts in insertion order. -/
inductive PyValue where
  | pynone : PyValue
  | pybool : Bool → PyValue
  | pyint : Int → PyValue
  | pyfloat : Bool → List Nat → List Nat → Int → PyValue
  | pynan : PyValue
  | pyinf : Bool → PyValue
  | pystr : List Nat → PyValue
  | pylist : List PyValue → PyValue
  | pydict : List (List Nat × PyValue) → PyValue

/-- Insertion into a Python dict: an existing key keeps its position and
gets the new value (so duplicate keys in a JSON object resolve last-wins,
as in `json.loads`); a new key is appended. -/
def dictInsert : List (List Nat × PyValue) → List Nat → PyValue →
    List (List Nat × PyValue)
  | [], k, v => [(k, v)]
  | e :: rest, k, v =>
    if e.1 = k then (e.1, v) :: rest else e :: dictInsert rest k v

/-- Python truthiness of a decoded JSON value (`bool(x)`): empty string,
empty list, empty dict, zero numbers and `None` are falsy.  A float is
truthy iff its decimal mantissa is non-zero (exact decimal reading; IEEE
underflow is not modelled and no claim depends on float truthiness). -/
def pyTruthy : PyValue → Bool
  | PyValue.pynone => false
  | PyValue.pybool b => b
  | PyValue.pyint n => !(n == 0)
  | PyValue.pyfloat _ ip fp _ => ip.any (fun d => !(d == 0)) || fp.any (fun d => !(d == 0))
  | PyValue.pynan => true
  | PyValue.pyinf _ => true
  | PyValue.pystr s => !s.isEmpty
  | PyValue.pylist xs => !xs.isEmpty
  | PyValue.pydict m => !m.isEmpty

/-- Python truthiness of a `dict.get` result: `None` (absent key) is
falsy. -/
def optTruthy : Option PyValue → Bool
  | none => false
  | some v => pyTruthy v

/-- A Lean string as the Python string value it denotes (its code
points). -/
def pyStrLit (s : String) : List Nat := s.data.map Char.toNat

/-- A string-to-string record as the Python dict value `save_credentials`
builds (`{"username": u, "password": p}` and friends). -/
def strRecord (m : List (String × String)) : PyValue :=
  PyValue.pydict (m.map fun kv => (pyStrLit kv.1, PyValue.pystr (pyStrLit kv.2)))

/-- Lowercase hexadecimal digit, as `json.dumps` emits in `\u00XX`
escapes. -/
def hexDig (k : Nat) : Char := Char.ofNat (if k < 10 then 48 + k else 87 + k)

/-- Four-digit lowercase hexadecimal rendering of a code unit. -/
def hex4 (n : Nat) : List Char :=
  [hexDig (n / 4096 % 16), hexDig (n / 256 % 16), hexDig (n / 16 % 16), hexDig (n % 16)]

/-- JSON string-content escaping of one character as `json.dumps` needs it:
quotation marks and backslashes get a backslash, control characters become
`\u00XX` escapes, everything else is emitted as itself. -/
def escChar (c : Char) : List Char :=
  if c = qm then [bsl, qm]
  else if c = bsl then [bsl, bsl]
  else if c.toNat < 32 then bsl :: 'u' :: hex4 c.toNat
  else [c]

/-- JSON string-content escaping of a character sequence. -/
def escStr (l : List Char) : List Char := (l.map escChar).flatten

/-- A JSON string literal for the characters of `s`. -/
def encStr (s : String) : List Char := qm :: (escStr s.data ++ [qm])

/-- One `"key": "value"` member, with the separator `": "` that
`json.dumps` uses by default. -/
def encField (k v : String) : List Char := encStr k ++ ':' :: ' ' :: encStr v

/-- The members of an object, separated by `", "` as `json.dumps` does. -/
def encFields : List (String × String) → List Char
  | [] => []
  | [f] => encField f.1 f.2
  | f :: fs => encField f.1 f.2 ++ ',' :: ' ' :: encFields fs

/-- Model of `json.dumps` on a string-to-string dict — the only value the
source ever serializes (lines 68–74 always dump the freshly assigned
two-string record). -/
def jsonDumps (m : List (String × String)) : List Char := lbr :: (encFields m ++ [rbr])

/-- The JSON whitespace characters (space, tab, line feed, carriage
return), as in the `json` module. -/
def isWs (c : Char) : Bool :=
  c = ' ' || c = Char.ofNat 9 || c = Char.ofNat 10 || c = Char.ofNat 13

/-- Skip leading JSON whitespace. -/
def skipWs : List Char → List Char
  | [] => []
  | c :: cs => if isWs c then skipWs cs else c :: cs

/-- Value of a hexadecimal digit character, either case. -/
def hexVal (c : Char) : Option Nat :=
  if 48 ≤ c.toNat ∧ c.toNat ≤ 57 then some (c.toNat - 48)
  else if 97 ≤ c.toNat ∧ c.toNat ≤ 102 then some (c.toNat - 87)
  else if 65 ≤ c.toNat ∧ c.toNat ≤ 70 then some (c.toNat - 55)
  else none

/-- Value of a four-hex-digit escape body. -/
def hexVal4 (a b c d : Char) : Option Nat :=
  match hexVal a, hexVal b, hexVal c, hexVal d with
  | some x, some y, some z, some w => some (4096 * x + 256 * y + 16 * z + w)
  | _, _, _, _ => none

/-- Value of a decimal digit character. -/
def digitVal (c : Char) : Option Nat :=
  if 48 ≤ c.toNat ∧ c.toNat ≤ 57 then some (c.toNat - 48) else none

/-- Longest leading run of decimal digits and the remaining input. -/
def takeDigits : List Char → List Nat × List Char
  | [] => ([], [])
  | c :: cs =>
    match digitVal c with
    | some d =>
      let r := takeDigits cs
      (d :: r.1, r.2)
    | none => ([], c :: cs)

/-- The natural number a digit run denotes. -/
def digitsToNat (ds : List Nat) : Nat := ds.foldl (fun a d => 10 * a + d) 0

/-- Consume an exact literal word, returning the rest of the input. -/
def stripLit : List Char → List Char → Option (List Char)
  | [], l => some l
  | _ :: _, [] => none
  | c :: cs, d :: ds => if c = d then stripLit cs ds else none

/-- Parse a JSON string body (after the opening quotation mark) into code
points, as CPython's `py_scanstring` with `strict=True` does: the escapes
`\" \\ \/ \b \f \n \r \t` and `\uXXXX`, combining a high-surrogate escape
immediately followed by a low-surrogate escape into one code point and
keeping lone surrogates; any other escape and any raw control character is
an error.  The fuel is decremented once per produced code point, so any
fuel exceeding the input length suffices. -/
def parseStrPoints : Nat → List Char → Option (List Nat × List Char)
  | 0, _ => none
  | fuel + 1, l =>
    match l with
    | [] => none
    | c :: cs =>
      if c = qm then some ([], cs)
      else if c = bsl then
        match cs with
        | [] => none
        | e :: es =>
          if e = qm || e = bsl || e = Char.ofNat 47 then
            (parseStrPoints fuel es).map (fun r => (e.toNat :: r.1, r.2))
          else if e = 'b' then (parseStrPoints fuel es).map (fun r => (8 :: r.1, r.2))
          else if e = 'f' then (parseStrPoints fuel es).map (fun r => (12 :: r.1, r.2))
          else if e = 'n' then (parseStrPoints fuel es).map (fun r => (10 :: r.1, r.2))
          else if e = 'r' then (parseStrPoints fuel es).map (fun r => (13 :: r.1, r.2))
          else if e = 't' then (parseStrPoints fuel es).map (fun r => (9 :: r.1, r.2))
          else if e = 'u' then
            match es with
            | h1 :: h2 :: h3 :: h4 :: es4 =>
              match hexVal4 h1 h2 h3 h4 with
              | none => none
              | some n =>
                if 55296 ≤ n && n < 56320 then
                  match es4 with
                  | b2 :: u2 :: g1 :: g2 :: g3 :: g4 :: es10 =>
                    if b2 = bsl && u2 = 'u' then
                      match hexVal4 g1 g2 g3 g4 with
                      | some m =>
                        if 56320 ≤ m && m < 57344 then
                          (parseStrPoints fuel es10).map (fun r =>
                            ((65536 + (n - 55296) * 1024 + (m - 56320)) :: r.1, r.2))
                        else (parseStrPoints fuel es4).map (fun r => (n :: r.1, r.2))
                      | none => (parseStrPoints fuel es4).map (fun r => (n :: r.1, r.2))
                    else (parseStrPoints fuel es4).map (fun r => (n :: r.1, r.2))
                  | _ => (parseStrPoints fuel es4).map (fun r => (n :: r.1, r.2))
                else (parseStrPoints fuel es4).map (fun r => (n :: r.1, r.2))
            | _ => none
          else none
      else if c.toNat < 32 then none
      else (parseStrPoints fuel cs).map (fun r => (c.toNat :: r.1, r.2))

/-- Parse a JSON number per the grammar of the `json` module's `NUMBER_RE`
(`-? (0 | [1-9][0-9]*) (\.[0-9]+)? ([eE][+-]?[0-9]+)?`), consuming the
longest match and producing a Python int when there is no fraction and no
exponent, a float otherwise. -/
def parseNumber (l : List Char) : Option (PyValue × List Char) :=
  let sn : Bool × List Char :=
    match l with
    | c :: cs => if c = Char.ofNat 45 then (true, cs) else (false, l)
    | [] => (false, [])
  match sn.2 with
  | [] => none
  | c :: cs =>
    match digitVal c with
    | none => none
    | some d0 =>
      let ipr : List Nat × List Char :=
        if d0 = 0 then ([0], cs) else takeDigits (c :: cs)
      let fr : Bool × List Nat × List Char :=
        match ipr.2 with
        | f :: fs =>
          if f = Char.ofNat 46 then
            match fs with
            | g :: _ =>
              match digitVal g with
              | some _ => (true, (takeDigits fs).1, (takeDigits fs).2)
              | none => (false, [], ipr.2)
            | [] => (false, [], ipr.2)
          else (false, [], ipr.2)
        | [] => (false, [], ipr.2)
      let er : Bool × Bool × List Nat × List Char :=
        match fr.2.2 with
        | e :: es =>
          if e = 'e' || e = 'E' then
            let sgn : Bool × List Char :=
              match es with
              | s :: ss =>
                if s = Char.ofNat 45 then (true, ss)
                else if s = Char.ofNat 43 then (false, ss)
                else (false, es)
              | [] => (false, [])
            match sgn.2 with
            | g :: _ =>
              match digitVal g with
              | some _ => (true, sgn.1, (takeDigits sgn.2).1, (takeDigits sgn.2).2)
              | none => (false, false, [], fr.2.2)
            | [] => (false, false, [], fr.2.2)
          else (false, false, [], fr.2.2)
        | [] => (false, false, [], fr.2.2)
      if fr.1 || er.1 then
        let ex : Int := if er.2.1 then -(Int.ofNat (digitsToNat er.2.2.1))
          else Int.ofNat (digitsToNat er.2.2.1)
        some (PyValue.pyfloat sn.1 ipr.1 fr.2.1 ex, er.2.2.2)
      else
        some (PyValue.pyint (if sn.1 then -(Int.ofNat (digitsToNat ipr.1))
          else Int.ofNat (digitsToNat ipr.1)), er.2.2.2)

/-- The object-member loop: parse `"key": value` members separated by
commas up to the closing bracket, with `value` parsed by `pv` (the value
parser one nesting level down) and whitespace skipped as the `json` module
does.  One fuel unit per member; each member consumes several input
characters, so any fuel exceeding the input length suffices. -/
def membersLoop (pv : List Char → Option (PyValue × List Char)) :
    Nat → List Char → List (List Nat × PyValue) → Option (PyValue × List Char)
  | 0, _, _ => none
  | fuel + 1, l, acc =>
    match l with
    | [] => none
    | c :: cs =>
      if c = qm then
        match parseStrPoints (cs.length + 1) cs with
        | none => none
        | some (key, r1) =>
          match skipWs r1 with
          | [] => none
          | c2 :: r2 =>
            if c2 = ':' then
              match pv (skipWs r2) with
              | none => none
              | some (v, r3) =>
                match skipWs r3 with
                | [] => none
                | c3 :: r4 =>
                  if c3 = ',' then
                    membersLoop pv fuel (skipWs r4) (dictInsert acc key v)
                  else if c3 = rbr then
                    some (PyValue.pydict (dictInsert acc key v), r4)
                  else none
            else none
      else none

/-- The array-element loop: parse values separated by commas up to the
closing bracket.  One fuel unit per element. -/
def elemsLoop (pv : List Char → Option (PyValue × List Char)) :
    Nat → List Char → List PyValue → Option (PyValue × List Char)
  | 0, _, _ => none
  | fuel + 1, l, acc =>
    match pv l with
    | none => none
    | some (v, r1) =>
      match skipWs r1 with
      | [] => none
      | c :: r2 =>
        if c = ',' then elemsLoop pv fuel (skipWs r2) (acc ++ [v])
        else if c = rsq then some (PyValue.pylist (acc ++ [v]), r2)
        else none

/-- Parse one JSON value (input must start at the value, whitespace already
skipped), as CPython's `_scan_once`: strings, objects, arrays, the literals
`null`/`true`/`false` and the `NaN`/`Infinity`/`-Infinity` extensions, and
numbers.  The fuel bounds the nesting depth; every nesting level consumes
at least one input character first, so any fuel exceeding the input length
suffices. -/
def parseValue : Nat → List Char → Option (PyValue × List Char)
  | 0, _ => none
  | fuel + 1, l =>
    match l with
    | [] => none
    | c :: cs =>
      if c = qm then
        (parseStrPoints (cs.length + 1) cs).map (fun r => (PyValue.pystr r.1, r.2))
      else if c = lbr then
        match skipWs cs with
        | [] => none
        | d :: ds =>
          if d = rbr then some (PyValue.pydict [], ds)
          else membersLoop (parseValue fuel) (ds.length + 2) (d :: ds) []
      else if c = lsq then
        match skipWs cs with
        | [] => none
        | d :: ds =>
          if d = rsq then some (PyValue.pylist [], ds)
          else elemsLoop (parseValue fuel) (ds.length + 2) (d :: ds) []
      else
        match stripLit ("null".data) l with
        | some r => some (PyValue.pynone, r)
        | none =>
          match stripLit ("true".data) l with
          | some r => some (PyValue.pybool true, r)
          | none =>
            match stripLit ("false".data) l with
            | some r => some (PyValue.pybool false, r)
            | none =>
              match stripLit ("NaN".data) l with
              | some r => some (PyValue.pynan, r)
              | none =>
                match stripLit ("Infinity".data) l with
                | some r => some (PyValue.pyinf false, r)
                | none =>
                  match stripLit ("-Infinity".data) l with
                  | some r => some (PyValue.pyinf true, r)
                  | none => parseNumber l

/-- Model of `json.loads` (on text already decoded from UTF-8): skip
whitespace, parse one value, skip whitespace, and reject any trailing
data. -/
def pyLoads (l : List Char) : Option PyValue :=
  match parseValue (l.length + 1) (skipWs l) with
  | some (v, rest) =>
    match skipWs rest with
    | [] => some v
    | _ => none
  | none => none

/-- On-disk state: the two files the credential cache uses (`none`: the
file does not exist, i.e. `os.path.exists` is false). -/
structure FS where
  keyFile : Option (List Nat)
  credFile : Option (List Nat)
deriving DecidableEq

/-- In-memory state of a `TolinoUploader`: the fields `_credentials` (set
to `{}` at construction and replaced by whatever `json.loads` returns on a
load, hence an arbitrary `PyValue`) and `_encryption_key`
(`Optional[bytes]`).  The browser fields take no part in the credential
cache. -/
structure Uploader where
  credentials : PyValue
  encryption_key : Option (List Nat)

/-- Python truthiness of an `Optional[bytes]` value: `None` and `b""` are
falsy. -/
def keyTruthy : Option (List Nat) → Bool
  | none => false
  | some k => !k.isEmpty

/-- Outcomes of the fallible primitives of `_load_encryption_key`: whether
reading an existing key file succeeds, the key material that
`Fernet.generate_key()` produces, and whether writing a new key file
succeeds. -/
structure KeyLoadEnv where
  readOk : Bool
  genKey : List Nat
  writeOk : Bool

/-- Outcome of the fallible read primitive of `_load_credentials`. -/
structure CredLoadEnv where
  readOk : Bool

/-- Outcome of `open(path, "wb")` followed by `write`: the write completes;
or `open` itself raises (path unwritable, file untouched); or the write
raises after `open` has truncated the file, leaving the first `n` bytes of
the attempted content. -/
inductive WriteOutcome where
  | ok : WriteOutcome
  | openFail : WriteOutcome
  | writeFail : Nat → WriteOutcome
deriving DecidableEq

/-- A Python `try`/`except` block whose body either returns normally or
raises an exception value, and whose handler always returns normally: run
as the exception-surface semantics, the overall result is an `Except` whose
`error` case would be an exception escaping the block. -/
def pyRun {α β : Type} (body : Except α β) (handler : α → β) : Except Unit β :=
  match body with
  | Except.ok v => Except.ok v
  | Except.error e => Except.ok (handler e)

/-- The value a `try`/`except` block with an always-returning handler
produces. -/
def pyCatch {α β : Type} (body : Except α β) (handler : α → β) : β :=
  match body with
  | Except.ok v => v
  | Except.error e => handler e

/-- The `try` body of `TolinoUploader._load_encryption_key`: read the key
file if it exists, else generate a key into memory and write it out.  A
raise (`Except.error`) carries the state reached so far, since the `except`
arm only logs: in particular a failing key-file write still leaves the
freshly generated key set in memory. -/
def load_encryption_key_body (env : KeyLoadEnv) (fs : FS) (st : Uploader) :
    Except (Uploader × FS) (Uploader × FS) :=
  if fs.keyFile.isSome then
    match fs.keyFile, env.readOk with
    | some k, true => Except.ok ({ st with encryption_key := some k }, fs)
    | _, _ => Except.error (st, fs)
  else
    let st1 := { st with encryption_key := some env.genKey }
    if env.writeOk then Except.ok (st1, { fs with keyFile := some env.genKey })
    else Except.error (st1, fs)

/-- Model of `TolinoUploader._load_encryption_key`, exception surface
explicit. -/
def load_encryption_keyE (env : KeyLoadEnv) (fs : FS) (st : Uploader) :
    Except Unit (Uploader × FS) :=
  pyRun (load_encryption_key_body env fs st) (fun r => r)

/-- Model of `TolinoUploader._load_encryption_key` as a state
transformer. -/
def load_encryption_key (env : KeyLoadEnv) (fs : FS) (st : Uploader) :
    Uploader × FS :=
  pyCatch (load_encryption_key_body env fs st) (fun r => r)

/-- The decrypt–decode–parse pipeline of `_load_credentials` applied to the
bytes of the credentials file under a key. -/
def loadChain (key data : List Nat) : Option PyValue :=
  match fernetDecrypt key data with
  | none => none
  | some pt =>
    match decodeBytes pt with
    | none => none
    | some chars => pyLoads chars

/-- The `try` body of `TolinoUploader._load_credentials`.  When the guard
`os.path.exists(file) and self._encryption_key` fails, nothing happens;
any raising step of read–decrypt–decode–parse is `Except.error`; a
successful parse stores whatever Python value `json.loads` produced. -/
def load_credentials_body (env : CredLoadEnv) (fs : FS) (st : Uploader) :
    Except Unit Uploader :=
  if fs.credFile.isSome && keyTruthy st.encryption_key then
    match fs.credFile, st.encryption_key with
    | some data, some key =>
      if env.readOk then
        match loadChain key data with
        | some v => Except.ok { st with credentials := v }
        | none => Except.error ()
      else Except.error ()
    | _, _ => Except.error ()
  else Except.ok st

/-- Model of `TolinoUploader._load_credentials`, exception surface
explicit; its `except` arm sets `_credentials = {}`. -/
def load_credentialsE (env : CredLoadEnv) (fs : FS) (st : Uploader) :
    Except Unit Uploader :=
  pyRun (load_credentials_body env fs st)
    (fun _ => { st with credentials := PyValue.pydict [] })

/-- Model of `TolinoUploader._load_credentials` as a state transformer. -/
def load_credentials (env : CredLoadEnv) (fs : FS) (st : Uploader) : Uploader :=
  pyCatch (load_credentials_body env fs st)
    (fun _ => { st with credentials := PyValue.pydict [] })

/-- The string pair list of the record
`{"username": username, "password": password}` that `save_credentials`
builds and serializes. -/
def credRecord (u p : String) : List (String × String) :=
  [("username", u), ("password", p)]

/-- The `try` body of `TolinoUploader.save_credentials`: ensure a key if
the current one is falsy (via the internally catching key loader),
unconditionally update the in-memory record to the two-string dict, then
`Fernet(key)` (raising on a falsy key), encrypt, and write the credentials
file.  A raise carries the memory and disk state reached so far. -/
def save_credentials_body (kenv : KeyLoadEnv) (wout : WriteOutcome) (u p : String)
    (fs : FS) (st : Uploader) : Except (Uploader × FS) (Bool × Uploader × FS) :=
  let s1 := if keyTruthy st.encryption_key then (st, fs)
    else load_encryption_key kenv fs st
  let st2 := { s1.1 with credentials := strRecord (credRecord u p) }
  match st2.encryption_key with
  | none => Except.error (st2, s1.2)
  | some key =>
    if key.isEmpty then Except.error (st2, s1.2)
    else
      let ct := fernetEncrypt key (encodeStr (jsonDumps (credRecord u p)))
      match wout with
      | WriteOutcome.ok => Except.ok (true, st2, { s1.2 with credFile := some ct })
      | WriteOutcome.openFail => Except.error (st2, s1.2)
      | WriteOutcome.writeFail n =>
        Except.error (st2, { s1.2 with credFile := some (ct.take n) })

/-- Model of `TolinoUploader.save_credentials`, exception surface explicit;
its `except` arm returns `False` keeping the state reached at the raise
point. -/
def save_credentialsE (kenv : KeyLoadEnv) (wout : WriteOutcome) (u p : String)
    (fs : FS) (st : Uploader) : Except Unit (Bool × Uploader × FS) :=
  pyRun (save_credentials_body kenv wout u p fs st) (fun s => (false, s.1, s.2))

/-- Model of `TolinoUploader.save_credentials` as a state transformer
returning the `(result, memory, disk)` triple. -/
def save_credentials (kenv : KeyLoadEnv) (wout : WriteOutcome) (u p : String)
    (fs : FS) (st : Uploader) : Bool × Uploader × FS :=
  pyCatch (save_credentials_body kenv wout u p fs st) (fun s => (false, s.1, s.2))

/-- Model of `TolinoUploader.has_credentials`, exception surface explicit:
`bool(self._credentials.get("username") and self._credentials.get("password"))`
evaluated on the current `_credentials` value.  On a dict it returns the
truthiness conjunction; on any non-dict value (reachable by loading a
validly encrypted non-dict JSON document) the `.get` attribute access
raises `AttributeError`, and the method body has no `try`. -/
def has_credentialsE (st : Uploader) : Except Unit Bool :=
  match st.credentials with
  | PyValue.pydict m =>
    Except.ok (optTruthy (m.lookup (pyStrLit "username")) &&
      optTruthy (m.lookup (pyStrLit "password")))
  | _ => Except.error ()

/-- Model of `TolinoUploader.__init__`: fresh in-memory state (empty
`_credentials` dict, no key), then `_load_encryption_key()` followed by
`_load_credentials()`. -/
def initUploader (kenv : KeyLoadEnv) (lenv : CredLoadEnv) (fs : FS) : Uploader × FS :=
  let s1 := load_encryption_key kenv fs
    { credentials := PyValue.pydict [], encryption_key := none }
  (load_credentials lenv s1.2 s1.1, s1.2)

/-- The key in memory after the `if not self._encryption_key:
self._load_encryption_key()` step at the start of `save_credentials`. -/
def ensuredKey (kenv : KeyLoadEnv) (fs : FS) (st : Uploader) : Option (List Nat) :=
  (if keyTruthy st.encryption_key then st
    else (load_encryption_key kenv fs st).1).encryption_key

/-- Model of `str.lower` as per-character ASCII lowercasing (which agrees
with Python's Unicode lowercasing on membership in any ASCII-only list of
words such as the one `string_to_bool` uses). -/
def pyLower (s : String) : String := String.mk (s.data.map Char.toLower)

/-- Model of `string_to_bool` of `env.py`:
`s.lower() in ["true", "yes", "1", "y"]`. -/
def string_to_bool (s : String) : Bool :=
  ["true", "yes", "1", "y"].contains (pyLower s)

lemma fernetDecrypt_encrypt (key pt : List Nat) :
    fernetDecrypt key (fernetEncrypt key pt) = some pt := by
  unfold fernetDecrypt fernetEncrypt
  simp [List.drop_left]

lemma fernetDecrypt_eq_some_iff {key ct pt : List Nat} :
    fernetDecrypt key ct = some pt ↔ ct = fernetEncrypt key pt := by
  constructor
  · intro h
    unfold fernetDecrypt at h
    split at h
    · cases h
      assumption
    · cases h
  · intro h
    subst h
    exact fernetDecrypt_encrypt key pt

/-- Decryption under a key different from the one a ciphertext was produced
under always fails. -/
lemma fernetDecrypt_wrong_key {k k' pt : List Nat} (h : k' ≠ k) :
    fernetDecrypt k' (fernetEncrypt k pt) = none := by
  cases hd : fernetDecrypt k' (fernetEncrypt k pt) with
  | none => rfl
  | some q =>
    exfalso
    have heq := fernetDecrypt_eq_some_iff.mp hd
    unfold fernetEncrypt at heq
    rw [List.cons_eq_cons] at heq
    obtain ⟨hlen, hrest⟩ := heq
    rw [List.append_assoc, List.append_assoc] at hrest
    have := List.append_inj hrest hlen
    exact h this.1.symm

lemma sum_set_add (l : List Nat) :
    ∀ (i b : Nat), i < l.length → (l.set i b).sum + l.getD i 0 = l.sum + b := by
  induction l with
  | nil => intro i b h; simp at h
  | cons a t ih =>
    intro i b h
    cases i with
    | zero => simp [List.sum_cons]; omega
    | succ j =>
      simp only [List.set_cons_succ, List.sum_cons, List.getD_cons_succ]
      have hj : j < t.length := by simpa using h
      have := ih j b hj
      omega

/-- Any single-byte modification of a ciphertext makes authenticated
decryption under the original key fail. -/
lemma fernetDecrypt_set {k p : List Nat} {i b : Nat}
    (hi : i < (fernetEncrypt k p).length)
    (hb : b ≠ (fernetEncrypt k p).getD i 0) :
    fernetDecrypt k ((fernetEncrypt k p).set i b) = none := by
  cases hd : fernetDecrypt k ((fernetEncrypt k p).set i b) with
  | none => rfl
  | some q =>
    exfalso
    have heq := fernetDecrypt_eq_some_iff.mp hd
    unfold fernetEncrypt at heq hb hi
    rw [List.append_assoc] at heq hb
    cases i with
    | zero =>
      rw [List.set_cons_zero, List.cons_eq_cons] at heq
      exact hb (by simpa using heq.1)
    | succ j =>
      rw [List.set_cons_succ, List.cons_eq_cons] at heq
      have hT := heq.2
      rw [List.append_assoc] at hT
      have hj : j < (k ++ (p ++ [List.sum k + List.sum p])).length := by
        simp at hi ⊢
        omega
      have hbT : b ≠ (k ++ (p ++ [List.sum k + List.sum p])).getD j 0 := by
        simpa [List.getD_cons_succ] using hb
      rw [List.getD_eq_getElem _ _ hj] at hbT
      by_cases hlt : j < k.length
      · rw [List.set_append, if_pos hlt] at hT
        have hinj := List.append_inj hT (by simp)
        have hbk : b = k.getD j 0 := by
          have h1 : (k.set j b).getD j 0 = b := by
            rw [List.getD_eq_getElem _ _ (by simpa using hlt)]
            exact List.getElem_set_self _
          rw [hinj.1] at h1
          exact h1.symm
        rw [List.getD_eq_getElem _ _ hlt] at hbk
        rw [List.getElem_append_left hlt] at hbT
        exact hbT hbk
      · rw [List.set_append, if_neg hlt] at hT
        have hinj := List.append_inj hT rfl
        have hmid := hinj.2
        have hge : k.length ≤ j := Nat.le_of_not_lt hlt
        rw [List.getElem_append_right hge] at hbT
        have hm1 : j - k.length < p.length + 1 := by
          simp at hj
          omega
        by_cases hmp : j - k.length < p.length
        · rw [List.set_append, if_pos hmp] at hmid
          have hqlen : (p.set (j - k.length) b).length = q.length := by
            have := congrArg List.length hmid
            simp at this ⊢
            omega
          have hinj2 := List.append_inj hmid hqlen
          have hss : List.sum k + List.sum p = List.sum k + List.sum q := by
            have := hinj2.2
            simpa using this
          have hsum : (p.set (j - k.length) b).sum = p.sum := by
            rw [hinj2.1]
            omega
          have hadd := sum_set_add p (j - k.length) b hmp
          rw [hsum] at hadd
          have hbp : b = p.getD (j - k.length) 0 := by omega
          rw [List.getD_eq_getElem _ _ hmp] at hbp
          rw [List.getElem_append_left hmp] at hbT
          exact hbT hbp
        · have hmeq : j - k.length = p.length := by omega
          rw [List.set_append, if_neg hmp, hmeq, Nat.sub_self] at hmid
          have hplen : p.length = q.length := by
            have := congrArg List.length hmid
            simpa using this
          have hinj2 := List.append_inj hmid hplen
          have hbs : b = List.sum k + List.sum q := by
            have := hinj2.2
            simpa [List.set] using this
          rw [← hinj2.1] at hbs
          apply hbT
          rw [List.getElem_append_right (by omega : p.length ≤ j - k.length)]
          simpa [hmeq] using hbs

lemma validCp_toNat (c : Char) : validCp c.toNat = true := by
  have h := c.valid
  rcases h with h | h
  · simp only [validCp, Char.toNat]
    have : c.val.toNat < 55296 := h
    simp [this]
  · simp only [validCp, Char.toNat]
    have h1 : 57343 < c.val.toNat := h.1
    have h2 : c.val.toNat < 1114112 := h.2
    simp [h1, h2]

lemma decodeBytes_encodeStr (l : List Char) : decodeBytes (encodeStr l) = some l := by
  unfold decodeBytes encodeStr
  rw [if_pos]
  · congr 1
    rw [List.map_map]
    have : (Char.ofNat ∘ Char.toNat) = id := by
      funext c
      exact Char.ofNat_toNat c
    rw [this, List.map_id]
  · rw [List.all_eq_true]
    intro x hx
    rw [List.mem_map] at hx
    obtain ⟨c, _, rfl⟩ := hx
    exact validCp_toNat c

lemma pyRun_isOk {α β : Type} (body : Except α β) (handler : α → β) :
    (pyRun body handler).isOk = true := by
  cases body <;> rfl

lemma pyRun_eq_ok {α β : Type} (body : Except α β) (handler : α → β) :
    pyRun body handler = Except.ok (pyCatch body handler) := by
  cases body <;> rfl

lemma load_encryption_key_read {fs : FS} {k : List Nat} (env : KeyLoadEnv)
    (st : Uploader) (hkf : fs.keyFile = some k) (hro : env.readOk = true) :
    load_encryption_key env fs st = ({ st with encryption_key := some k }, fs) := by
  unfold load_encryption_key load_encryption_key_body
  simp [hkf, hro, pyCatch]

lemma load_encryption_key_read_fail {fs : FS} {k : List Nat} (env : KeyLoadEnv)
    (st : Uploader) (hkf : fs.keyFile = some k) (hro : env.readOk = false) :
    load_encryption_key env fs st = (st, fs) := by
  unfold load_encryption_key load_encryption_key_body
  simp [hkf, hro, pyCatch]

lemma load_encryption_key_gen {fs : FS} (env : KeyLoadEnv) (st : Uploader)
    (hkf : fs.keyFile = none) :
    load_encryption_key env fs st =
      ({ st with encryption_key := some env.genKey },
        if env.writeOk then { fs with keyFile := some env.genKey } else fs) := by
  unfold load_encryption_key load_encryption_key_body
  cases hwo : env.writeOk <;> simp [hkf, hwo, pyCatch]

lemma s1_key_eq (kenv : KeyLoadEnv) (fs : FS) (st : Uploader) :
    (if keyTruthy st.encryption_key then (st, fs)
      else load_encryption_key kenv fs st).1.encryption_key = ensuredKey kenv fs st := by
  unfold ensuredKey
  split <;> rfl

lemma load_encryption_key_credFile (env : KeyLoadEnv) (fs : FS) (st : Uploader) :
    (load_encryption_key env fs st).2.credFile = fs.credFile := by
  cases hkf : fs.keyFile with
  | none =>
    rw [load_encryption_key_gen env st hkf]
    cases env.writeOk <;> simp
  | some k =>
    cases hro : env.readOk
    · rw [load_encryption_key_read_fail env st hkf hro]
    · rw [load_encryption_key_read env st hkf hro]

lemma load_encryption_key_creds (env : KeyLoadEnv) (fs : FS) (st : Uploader) :
    (load_encryption_key env fs st).1.credentials = st.credentials := by
  cases hkf : fs.keyFile with
  | none => rw [load_encryption_key_gen env st hkf]
  | some k =>
    cases hro : env.readOk
    · rw [load_encryption_key_read_fail env st hkf hro]
    · rw [load_encryption_key_read env st hkf hro]

lemma isEmpty_false_iff (s : String) : s.isEmpty = false ↔ ¬ s = "" := by
  rw [Bool.eq_false_iff]
  exact not_congr (String.isEmpty_iff s)

lemma hexVal_hexDig : ∀ k, k < 16 → hexVal (hexDig k) = some k := by decide

lemma hexVal4_hex4 {n : Nat} (h : n < 65536) :
    hexVal4 (hexDig (n / 4096 % 16)) (hexDig (n / 256 % 16)) (hexDig (n / 16 % 16))
      (hexDig (n % 16)) = some n := by
  unfold hexVal4
  rw [hexVal_hexDig _ (Nat.mod_lt _ (by omega)), hexVal_hexDig _ (Nat.mod_lt _ (by omega)),
    hexVal_hexDig _ (Nat.mod_lt _ (by omega)), hexVal_hexDig _ (Nat.mod_lt _ (by omega))]
  simp only [Option.some.injEq]
  omega

lemma escStr_cons (c : Char) (l : List Char) : escStr (c :: l) = escChar c ++ escStr l := by
  simp [escStr]

lemma length_le_escStr (l : List Char) : l.length ≤ (escStr l).length := by
  induction l with
  | nil => simp [escStr]
  | cons c cs ih =>
    rw [escStr_cons]
    have h1 : 1 ≤ (escChar c).length := by
      unfold escChar
      split
      · simp
      · split
        · simp
        · split
          · simp
          · simp
    simp only [List.length_append, List.length_cons]
    omega

lemma parseStrPoints_qm (f : Nat) (rest : List Char) :
    parseStrPoints (f + 1) (qm :: rest) = some ([], rest) := by
  rw [parseStrPoints.eq_def]
  simp

lemma parseStrPoints_esc1 (f : Nat) (e : Char) (rest : List Char)
    (he : (e = qm || e = bsl || e = Char.ofNat 47) = true) :
    parseStrPoints (f + 1) (bsl :: e :: rest) =
      (parseStrPoints f rest).map (fun r => (e.toNat :: r.1, r.2)) := by
  rw [parseStrPoints.eq_def]
  simp [show ¬ (bsl = qm) from by decide, he]

lemma parseStrPoints_escu (f : Nat) (n : Nat) (rest : List Char)
    (hlo : n < 55296) :
    parseStrPoints (f + 1) (bsl :: 'u' :: (hex4 n ++ rest)) =
      (parseStrPoints f rest).map (fun r => (n :: r.1, r.2)) := by
  have h65536 : n < 65536 := by omega
  rw [show hex4 n = [hexDig (n / 4096 % 16), hexDig (n / 256 % 16),
    hexDig (n / 16 % 16), hexDig (n % 16)] from rfl]
  rw [parseStrPoints.eq_def]
  simp only [List.cons_append, List.nil_append]
  simp only [show ¬ (bsl = qm) from by decide, show (bsl = bsl) from rfl,
    show (('u' : Char) = qm || 'u' = bsl || 'u' = Char.ofNat 47) = false from by decide,
    show ¬ (('u' : Char) = 'b') from by decide,
    show ¬ (('u' : Char) = 'f') from by decide,
    show ¬ (('u' : Char) = 'n') from by decide,
    show ¬ (('u' : Char) = 'r') from by decide,
    show ¬ (('u' : Char) = 't') from by decide,
    show (('u' : Char) = 'u') from rfl,
    if_neg, if_pos, if_true, Bool.false_eq_true, if_false]
  rw [hexVal4_hex4 h65536]
  simp only []
  rw [if_neg (by simp; omega : ¬ (decide (55296 ≤ n) && decide (n < 56320)) = true)]

lemma parseStrPoints_raw (f : Nat) (c : Char) (cs : List Char)
    (hq : ¬ c = qm) (hb : ¬ c = bsl) (hc : ¬ c.toNat < 32) :
    parseStrPoints (f + 1) (c :: cs) =
      (parseStrPoints f cs).map (fun r => (c.toNat :: r.1, r.2)) := by
  rw [parseStrPoints.eq_def]
  simp [hq, hb, hc]

lemma parseStrPoints_escStr :
    ∀ (s : List Char) (fuel : Nat) (rest : List Char), s.length < fuel →
      parseStrPoints fuel (escStr s ++ (qm :: rest)) = some (s.map Char.toNat, rest) := by
  intro s
  induction s with
  | nil =>
    intro fuel rest h
    cases fuel with
    | zero => omega
    | succ f =>
      rw [show escStr [] = [] from rfl, List.nil_append, parseStrPoints_qm]
      rfl
  | cons c cs ih =>
    intro fuel rest h
    cases fuel with
    | zero => omega
    | succ f =>
      have hcs : cs.length < f := by
        simp only [List.length_cons] at h
        omega
      rw [escStr_cons]
      by_cases hq : c = qm
      · subst hq
        rw [show escChar qm = [bsl, qm] from by simp [escChar]]
        simp only [List.cons_append, List.nil_append]
        rw [parseStrPoints_esc1 f qm _ (by decide), ih f rest hcs]
        rfl
      · by_cases hb : c = bsl
        · subst hb
          rw [show escChar bsl = [bsl, bsl] from by
            simp [escChar, show ¬ bsl = qm from by decide]]
          simp only [List.cons_append, List.nil_append]
          rw [parseStrPoints_esc1 f bsl _ (by decide), ih f rest hcs]
          rfl
        · by_cases hc : c.toNat < 32
          · rw [show escChar c = bsl :: 'u' :: hex4 c.toNat from by
              simp [escChar, hq, hb, hc]]
            simp only [List.cons_append, List.append_assoc]
            rw [parseStrPoints_escu f c.toNat _ (by omega), ih f rest hcs]
            rfl
          · rw [show escChar c = [c] from by simp [escChar, hq, hb, hc]]
            simp only [List.cons_append, List.nil_append]
            rw [parseStrPoints_raw f c _ hq hb hc, ih f rest hcs]
            rfl

lemma skipWs_nil : skipWs [] = [] := rfl

lemma skipWs_space (l : List Char) : skipWs (' ' :: l) = skipWs l := rfl

lemma skipWs_qm (l : List Char) : skipWs (qm :: l) = qm :: l := rfl

lemma skipWs_colon (l : List Char) : skipWs (':' :: l) = ':' :: l := rfl

lemma skipWs_comma (l : List Char) : skipWs (',' :: l) = ',' :: l := rfl

lemma skipWs_rbr (l : List Char) : skipWs (rbr :: l) = rbr :: l := rfl

lemma skipWs_lbr (l : List Char) : skipWs (lbr :: l) = lbr :: l := rfl

lemma skipWs_encStr (s : String) (rest : List Char) :
    skipWs (encStr s ++ rest) = encStr s ++ rest := by
  rw [show encStr s ++ rest = qm :: (escStr s.data ++ ([qm] ++ rest)) from by simp [encStr]]
  rw [skipWs_qm]

lemma parseValue_qm (g : Nat) (cs : List Char) :
    parseValue (g + 1) (qm :: cs) =
      (parseStrPoints (cs.length + 1) cs).map (fun r => (PyValue.pystr r.1, r.2)) := by
  rw [parseValue.eq_def]
  simp

lemma parseValue_encStr (g : Nat) (s : String) (rest : List Char) :
    parseValue (g + 1) (encStr s ++ rest) = some (PyValue.pystr (pyStrLit s), rest) := by
  have hshape : encStr s ++ rest = qm :: (escStr s.data ++ (qm :: rest)) := by
    simp [encStr]
  rw [hshape, parseValue_qm]
  have hlen : s.data.length < (escStr s.data ++ (qm :: rest)).length + 1 := by
    have := length_le_escStr s.data
    simp only [List.length_append, List.length_cons]
    omega
  rw [parseStrPoints_escStr s.data _ rest hlen]
  rfl

lemma membersLoop_step (pv : List Char → Option (PyValue × List Char)) (f : Nat)
    (k : String) (V : List Char) (v : PyValue) (r3 : List Char)
    (acc : List (List Nat × PyValue)) (hpv : pv (skipWs V) = some (v, r3)) :
    membersLoop pv (f + 1) (encStr k ++ (':' :: ' ' :: V)) acc =
      (match skipWs r3 with
       | [] => none
       | c3 :: r4 =>
         if c3 = ',' then membersLoop pv f (skipWs r4) (dictInsert acc (pyStrLit k) v)
         else if c3 = rbr then
           some (PyValue.pydict (dictInsert acc (pyStrLit k) v), r4)
         else none) := by
  have hshape : encStr k ++ (':' :: ' ' :: V) =
      qm :: (escStr k.data ++ (qm :: (':' :: ' ' :: V))) := by
    simp [encStr]
  rw [hshape, membersLoop.eq_def]
  have hlen : k.data.length < (escStr k.data ++ (qm :: (':' :: ' ' :: V))).length + 1 := by
    have := length_le_escStr k.data
    simp only [List.length_append, List.length_cons]
    omega
  simp only [parseStrPoints_escStr k.data _ _ hlen, skipWs_colon, skipWs_space, hpv]
  simp [pyStrLit]

lemma membersLoop_step_comma (pv : List Char → Option (PyValue × List Char)) (f : Nat)
    (k : String) (V : List Char) (v : PyValue) (r4 : List Char)
    (acc : List (List Nat × PyValue)) (hpv : pv (skipWs V) = some (v, ',' :: r4)) :
    membersLoop pv (f + 1) (encStr k ++ (':' :: ' ' :: V)) acc =
      membersLoop pv f (skipWs r4) (dictInsert acc (pyStrLit k) v) := by
  rw [membersLoop_step pv f k V v (',' :: r4) acc hpv, skipWs_comma]
  simp

lemma membersLoop_step_rbr (pv : List Char → Option (PyValue × List Char)) (f : Nat)
    (k : String) (V : List Char) (v : PyValue) (r4 : List Char)
    (acc : List (List Nat × PyValue)) (hpv : pv (skipWs V) = some (v, rbr :: r4)) :
    membersLoop pv (f + 1) (encStr k ++ (':' :: ' ' :: V)) acc =
      some (PyValue.pydict (dictInsert acc (pyStrLit k) v), r4) := by
  rw [membersLoop_step pv f k V v (rbr :: r4) acc hpv, skipWs_rbr]
  simp [show ¬ rbr = ',' from by decide]

lemma skipWs_encField (k v : String) (rest : List Char) :
    skipWs (encField k v ++ rest) = encField k v ++ rest := by
  rw [show encField k v ++ rest = encStr k ++ ((':' :: ' ' :: encStr v) ++ rest) from by
    simp [encField]]
  rw [skipWs_encStr]

lemma membersLoop_record (pv : List Char → Option (PyValue × List Char))
    (hpv : ∀ v rest, pv (encStr v ++ rest) = some (PyValue.pystr (pyStrLit v), rest))
    (f : Nat) (u p : String) (rest : List Char) :
    membersLoop pv (f + 2)
      (encField "username" u ++ (',' :: ' ' :: (encField "password" p ++ (rbr :: rest))))
      [] = some (strRecord (credRecord u p), rest) := by
  have h2 : f + 2 = (f + 1) + 1 := rfl
  have hshape1 : encField "username" u ++
      (',' :: ' ' :: (encField "password" p ++ (rbr :: rest))) =
      encStr "username" ++ (':' :: ' ' ::
        (encStr u ++ (',' :: ' ' :: (encField "password" p ++ (rbr :: rest))))) := by
    simp [encField]
  have hv1 : pv (skipWs (encStr u ++
      (',' :: ' ' :: (encField "password" p ++ (rbr :: rest))))) =
      some (PyValue.pystr (pyStrLit u),
        ',' :: (' ' :: (encField "password" p ++ (rbr :: rest)))) := by
    rw [skipWs_encStr]
    exact hpv u _
  rw [h2, hshape1, membersLoop_step_comma pv (f + 1) "username" _ _ _ [] hv1]
  rw [skipWs_space, skipWs_encField]
  have hshape2 : encField "password" p ++ (rbr :: rest) =
      encStr "password" ++ (':' :: ' ' :: (encStr p ++ (rbr :: rest))) := by
    simp [encField]
  have hv2 : pv (skipWs (encStr p ++ (rbr :: rest))) =
      some (PyValue.pystr (pyStrLit p), rbr :: rest) := by
    rw [skipWs_encStr]
    exact hpv p _
  rw [hshape2, membersLoop_step_rbr pv f "password" _ _ _ _ hv2]
  have hdict : dictInsert (dictInsert [] (pyStrLit "username") (PyValue.pystr (pyStrLit u)))
      (pyStrLit "password") (PyValue.pystr (pyStrLit p)) =
      [(pyStrLit "username", PyValue.pystr (pyStrLit u)),
       (pyStrLit "password", PyValue.pystr (pyStrLit p))] := by
    simp [dictInsert, show ¬ pyStrLit "username" = pyStrLit "password" from by decide]
  rw [hdict]
  rfl

lemma parseValue_lbr (g : Nat) (cs : List Char) :
    parseValue (g + 1) (lbr :: cs) =
      (match skipWs cs with
       | [] => none
       | d :: ds =>
         if d = rbr then some (PyValue.pydict [], ds)
         else membersLoop (parseValue g) (ds.length + 2) (d :: ds) []) := by
  rw [parseValue.eq_def]
  simp [show ¬ lbr = qm from by decide]

lemma parseValue_record (g : Nat) (u p : String) (rest : List Char) :
    parseValue (g + 2)
      (lbr :: (encField "username" u ++
        (',' :: ' ' :: (encField "password" p ++ (rbr :: rest))))) =
      some (strRecord (credRecord u p), rest) := by
  rw [show g + 2 = (g + 1) + 1 from rfl]
  rw [parseValue_lbr]
  rw [skipWs_encField]
  have hx : encField "username" u ++
      (',' :: ' ' :: (encField "password" p ++ (rbr :: rest))) =
      qm :: (escStr ("username".data) ++
        (qm :: (':' :: ' ' :: (encStr u ++
          (',' :: ' ' :: (encField "password" p ++ (rbr :: rest))))))) := by
    simp [encField, encStr]
  rw [hx]
  dsimp only
  rw [if_neg (show ¬ qm = rbr from by decide)]
  rw [← hx]
  exact membersLoop_record (parseValue (g + 1))
    (fun v r => parseValue_encStr g v r) _ u p rest

lemma pyLoads_dumps_record (u p : String) :
    pyLoads (jsonDumps (credRecord u p)) = some (strRecord (credRecord u p)) := by
  have hshape : jsonDumps (credRecord u p) =
      lbr :: (encField "username" u ++
        (',' :: ' ' :: (encField "password" p ++ (rbr :: ([] : List Char))))) := by
    simp [jsonDumps, encFields, credRecord]
  rw [hshape]
  unfold pyLoads
  rw [skipWs_lbr, List.length_cons]
  rw [show ∀ n : Nat, n + 1 + 1 = n + 2 from fun n => rfl]
  rw [parseValue_record]
  rfl

lemma loadChain_dumps (key : List Nat) (u p : String) :
    loadChain key (fernetEncrypt key (encodeStr (jsonDumps (credRecord u p)))) =
      some (strRecord (credRecord u p)) := by
  unfold loadChain
  rw [fernetDecrypt_encrypt]
  dsimp only
  rw [decodeBytes_encodeStr]
  dsimp only
  exact pyLoads_dumps_record u p

lemma load_credentials_skip {fs : FS} {st : Uploader} (env : CredLoadEnv)
    (h : fs.credFile = none ∨ keyTruthy st.encryption_key = false) :
    load_credentials env fs st = st := by
  unfold load_credentials load_credentials_body
  rcases h with h | h <;> simp [h, pyCatch]

lemma load_credentials_run {fs : FS} {st : Uploader} {data key : List Nat}
    (env : CredLoadEnv) (hcf : fs.credFile = some data)
    (hk : st.encryption_key = some key) (hkt : keyTruthy (some key) = true) :
    load_credentials env fs st =
      { st with credentials :=
          ((if env.readOk = true then loadChain key data else none).getD
            (PyValue.pydict [])) } := by
  unfold load_credentials load_credentials_body
  cases hro : env.readOk
  · simp [hcf, hk, hkt, hro, pyCatch]
  · cases hch : loadChain key data <;> simp [hcf, hk, hkt, hro, hch, pyCatch]

lemma save_credentials_eq (kenv : KeyLoadEnv) (wout : WriteOutcome) (u p : String)
    (fs : FS) (st : Uploader) :
    save_credentials kenv wout u p fs st =
      (let s1 := if keyTruthy st.encryption_key then (st, fs)
          else load_encryption_key kenv fs st
        let st2 := { s1.1 with credentials := strRecord (credRecord u p) }
        match s1.1.encryption_key with
        | none => (false, st2, s1.2)
        | some key =>
          if key.isEmpty then (false, st2, s1.2)
          else
            let ct := fernetEncrypt key (encodeStr (jsonDumps (credRecord u p)))
            match wout with
            | WriteOutcome.ok => (true, st2, { s1.2 with credFile := some ct })
            | WriteOutcome.openFail => (false, st2, s1.2)
            | WriteOutcome.writeFail n =>
              (false, st2, { s1.2 with credFile := some (ct.take n) })) := by
  unfold save_credentials save_credentials_body
  dsimp only
  split
  · rfl
  · rename_i key
    split
    · rfl
    · cases wout <;> rfl

lemma save_result_true_iff (kenv : KeyLoadEnv) (wout : WriteOutcome) (u p : String)
    (fs : FS) (st : Uploader) :
    (save_credentials kenv wout u p fs st).1 = true ↔
      (keyTruthy (ensuredKey kenv fs st) = true ∧ wout = WriteOutcome.ok) := by
  rw [save_credentials_eq]
  dsimp only
  rw [s1_key_eq]
  cases hek : ensuredKey kenv fs st with
  | none => simp [keyTruthy]
  | some key =>
    cases hke : key.isEmpty
    · cases wout <;> simp [keyTruthy, hke]
    · simp [keyTruthy, hke]

lemma save_credentials_mem (kenv : KeyLoadEnv) (wout : WriteOutcome) (u p : String)
    (fs : FS) (st : Uploader) :
    (save_credentials kenv wout u p fs st).2.1.credentials =
      strRecord (credRecord u p) := by
  rw [save_credentials_eq]
  dsimp only
  split
  · rfl
  · split
    · rfl
    · cases wout <;> rfl

lemma save_credFile_openFail (kenv : KeyLoadEnv) (u p : String) (fs : FS)
    (st : Uploader) :
    (save_credentials kenv WriteOutcome.openFail u p fs st).2.2.credFile =
      fs.credFile := by
  have hcf : ((if keyTruthy st.encryption_key then (st, fs)
      else load_encryption_key kenv fs st).2).credFile = fs.credFile := by
    split
    · rfl
    · exact load_encryption_key_credFile kenv fs st
  rw [save_credentials_eq]
  dsimp only
  split
  · exact hcf
  · split
    · exact hcf
    · exact hcf

lemma save_key_unavailable (kenv : KeyLoadEnv) (wout : WriteOutcome) (u p : String)
    (fs : FS) (st : Uploader) (h : keyTruthy (ensuredKey kenv fs st) = false) :
    (save_credentials kenv wout u p fs st).2.2.credFile = fs.credFile := by
  have hcf : ((if keyTruthy st.encryption_key then (st, fs)
      else load_encryption_key kenv fs st).2).credFile = fs.credFile := by
    split
    · rfl
    · exact load_encryption_key_credFile kenv fs st
  rw [save_credentials_eq]
  dsimp only
  rw [s1_key_eq]
  cases hek : ensuredKey kenv fs st with
  | none => exact hcf
  | some key =>
    rw [hek] at h
    have hke : key.isEmpty = true := by
      simpa [keyTruthy] using h
    dsimp only
    rw [if_pos hke]
    exact hcf

lemma save_credFile_writeFail (kenv : KeyLoadEnv) (u p : String) (fs : FS)
    (st : Uploader) (n : Nat) (key : List Nat)
    (hk : ensuredKey kenv fs st = some key) (hkt : keyTruthy (some key) = true) :
    (save_credentials kenv (WriteOutcome.writeFail n) u p fs st).2.2.credFile =
      some ((fernetEncrypt key (encodeStr (jsonDumps (credRecord u p)))).take n) := by
  rw [save_credentials_eq]
  dsimp only
  rw [s1_key_eq, hk]
  dsimp only
  have hke : ¬ key.isEmpty = true := by
    have h1 : key.isEmpty = false := by simpa [keyTruthy] using hkt
    simp [h1]
  rw [if_neg hke]

lemma save_ok_components (kenv : KeyLoadEnv) (u p : String) (fs : FS)
    (st : Uploader) (key : List Nat)
    (hk : ensuredKey kenv fs st = some key) (hkt : keyTruthy (some key) = true) :
    (save_credentials kenv WriteOutcome.ok u p fs st).2.1.encryption_key = some key ∧
    (save_credentials kenv WriteOutcome.ok u p fs st).2.2.credFile =
      some (fernetEncrypt key (encodeStr (jsonDumps (credRecord u p)))) := by
  rw [save_credentials_eq]
  dsimp only
  rw [s1_key_eq, hk]
  dsimp only
  have hke : ¬ key.isEmpty = true := by
    have h1 : key.isEmpty = false := by simpa [keyTruthy] using hkt
    simp [h1]
  rw [if_neg hke]
  exact ⟨rfl, rfl⟩

lemma pyStrLit_inj {a b : String} (h : pyStrLit a = pyStrLit b) : a = b := by
  have hd : a.data = b.data := by
    unfold pyStrLit at h
    have h2 := congrArg (List.map Char.ofNat) h
    have hfun : (Char.ofNat ∘ Char.toNat) = id := funext fun c => Char.ofNat_toNat c
    simpa [List.map_map, hfun] using h2
  exact congrArg String.mk hd

lemma pyStrLit_eq_nil_iff (v : String) : pyStrLit v = [] ↔ v = "" := by
  constructor
  · intro h
    exact pyStrLit_inj (a := v) (b := "") h
  · intro h
    rw [h]
    rfl

lemma lookup_strRecord (m : List (String × String)) (k : String) :
    ((m.map fun kv => (pyStrLit kv.1, PyValue.pystr (pyStrLit kv.2))).lookup
      (pyStrLit k)) = (m.lookup k).map (fun v => PyValue.pystr (pyStrLit v)) := by
  induction m with
  | nil => rfl
  | cons e rest ih =>
    rcases e with ⟨a, b⟩
    by_cases h : k = a
    · subst h
      simp [List.lookup]
    · have h2 : ¬ pyStrLit k = pyStrLit a := fun hh => h (pyStrLit_inj hh)
      have hb1 : (pyStrLit k == pyStrLit a) = false := beq_eq_false_iff_ne.mpr h2
      have hb2 : (k == a) = false := beq_eq_false_iff_ne.mpr h
      simp [List.lookup, hb1, hb2, ih]

lemma has_credE_strRecord (st : Uploader) (m : List (String × String))
    (hc : st.credentials = strRecord m) :
    has_credentialsE st = Except.ok
      ((optTruthy ((m.lookup "username").map (fun v => PyValue.pystr (pyStrLit v)))) &&
       (optTruthy ((m.lookup "password").map (fun v => PyValue.pystr (pyStrLit v))))) := by
  unfold has_credentialsE
  rw [hc]
  unfold strRecord
  dsimp only
  rw [lookup_strRecord, lookup_strRecord]

lemma optTruthy_pystr_iff (o : Option String) :
    optTruthy (o.map fun v => PyValue.pystr (pyStrLit v)) = true ↔
      ∃ v, o = some v ∧ ¬ v = "" := by
  cases o with
  | none => simp [optTruthy]
  | some v =>
    simp [optTruthy, pyTruthy, List.isEmpty_iff, pyStrLit_eq_nil_iff]

lemma has_cred_of_credRecord (st : Uploader) (u p : String)
    (hc : st.credentials = strRecord (credRecord u p)) (hu : ¬ u = "")
    (hp : ¬ p = "") : has_credentialsE st = Except.ok true := by
  rw [has_credE_strRecord st (credRecord u p) hc]
  have h1 : (credRecord u p).lookup "username" = some u := by
    simp [credRecord, List.lookup]
  have h2 : (credRecord u p).lookup "password" = some p := by
    simp [credRecord, List.lookup]
  rw [h1, h2]
  have t1 : optTruthy ((some u).map fun v => PyValue.pystr (pyStrLit v)) = true :=
    (optTruthy_pystr_iff (some u)).mpr ⟨u, rfl, hu⟩
  have t2 : optTruthy ((some p).map fun v => PyValue.pystr (pyStrLit v)) = true :=
    (optTruthy_pystr_iff (some p)).mpr ⟨p, rfl, hp⟩
  rw [t1, t2]
  rfl

lemma has_cred_of_emptyDict (st : Uploader) (hc : st.credentials = PyValue.pydict []) :
    has_credentialsE st = Except.ok false := by
  unfold has_credentialsE
  rw [hc]
  rfl

lemma load_credentials_creds_empty (lenv : CredLoadEnv) (fs : FS) (st : Uploader)
    (hstart : st.credentials = PyValue.pydict [])
    (h : ∀ data key, fs.credFile = some data → st.encryption_key = some key →
      keyTruthy (some key) = true → lenv.readOk = true → loadChain key data = none) :
    (load_credentials lenv fs st).credentials = PyValue.pydict [] := by
  cases hcf : fs.credFile with
  | none =>
    rw [load_credentials_skip lenv (Or.inl hcf)]
    exact hstart
  | some data =>
    cases hk : st.encryption_key with
    | none =>
      rw [load_credentials_skip lenv (Or.inr (by rw [hk]; rfl))]
      exact hstart
    | some key =>
      cases hkt : keyTruthy (some key)
      · rw [load_credentials_skip lenv (Or.inr (by rw [hk]; exact hkt))]
        exact hstart
      · rw [load_credentials_run lenv hcf hk hkt]
        cases hro : lenv.readOk
        · simp
        · simp [h data key hcf hk hkt hro]

lemma init_creds_of_no_success (kenv : KeyLoadEnv) (lenv : CredLoadEnv) (fs : FS)
    (h : ¬ ∃ data key m, fs.credFile = some data ∧
      (load_encryption_key kenv fs
        ⟨PyValue.pydict [], none⟩).1.encryption_key = some key ∧
      keyTruthy (some key) = true ∧ lenv.readOk = true ∧
      loadChain key data = some m) :
    (initUploader kenv lenv fs).1.credentials = PyValue.pydict [] := by
  unfold initUploader
  dsimp only
  apply load_credentials_creds_empty
  · exact load_encryption_key_creds kenv fs _
  · intro data key hcf hk hkt hro
    cases hch : loadChain key data with
    | none => rfl
    | some m =>
      exfalso
      apply h
      refine ⟨data, key, m, ?_, hk, hkt, hro, hch⟩
      rwa [← load_encryption_key_credFile kenv fs ⟨PyValue.pydict [], none⟩]

/-- C10: the boolean configuration parser `string_to_bool` (used for the
`ENABLE_TOLINO` feature toggle, among others) returns true exactly when the
lowercased input is one of "true", "yes", "1" or "y", and false for every
other string; in particular "on" and "enabled" parse as false while "TRUE"
and "Y" parse as true. -/
theorem c10_string_to_bool_spec :
    (∀ s : String, string_to_bool s = true ↔
      (pyLower s = "true" ∨ pyLower s = "yes" ∨ pyLower s = "1" ∨ pyLower s = "y")) ∧
    string_to_bool "on" = false ∧ string_to_bool "enabled" = false ∧
    string_to_bool "TRUE" = true ∧ string_to_bool "Y" = true := by
  refine ⟨fun s => ?_, by decide, by decide, by decide, by decide⟩
  unfold string_to_bool
  simp [List.contains]

/-- C4: on a record-shaped cached value (the dict of strings the source
annotates `_credentials` with and the only shape it ever writes itself),
`has_credentials` returns normally, and returns true if and only if the
record has both a non-empty "username" entry and a non-empty "password"
entry, so a record with a missing or empty field counts as absent.  By its
type the operation reads only the in-memory record: it takes no filesystem
state and returns no modified state. -/
theorem c4_has_credentials_iff (st : Uploader) (m : List (String × String))
    (hm : st.credentials = strRecord m) :
    has_credentialsE st = Except.ok true ↔
      ((∃ u, m.lookup "username" = some u ∧ ¬ u = "") ∧
       (∃ p, m.lookup "password" = some p ∧ ¬ p = "")) := by
  rw [has_credE_strRecord st m hm]
  simp [Bool.and_eq_true, optTruthy_pystr_iff]

/-- C4 witness: a concrete two-field record with non-empty entries reports
credentials present. -/
theorem c4_has_credentials_iff_witness :
    has_credentialsE ⟨strRecord (credRecord "a" "b"), none⟩ = Except.ok true :=
  (c4_has_credentials_iff ⟨strRecord (credRecord "a" "b"), none⟩
    (credRecord "a" "b") rfl).mpr
    ⟨⟨"a", by simp [credRecord, List.lookup], by decide⟩,
     ⟨"b", by simp [credRecord, List.lookup], by decide⟩⟩

/-- C6: when the key file exists and its read succeeds,
`_load_encryption_key` sets the in-memory key to exactly the file's raw
bytes and leaves the filesystem unmodified; invoking it twice without the
key file being deleted in between yields byte-identical key material both
times. -/
theorem c6_key_load_idempotent (env env2 : KeyLoadEnv) (fs : FS) (st : Uploader)
    (k : List Nat) (hkf : fs.keyFile = some k) (hro : env.readOk = true)
    (hro2 : env2.readOk = true) :
    (load_encryption_key env fs st).1.encryption_key = some k ∧
    (load_encryption_key env fs st).2 = fs ∧
    (load_encryption_key env2 (load_encryption_key env fs st).2
      (load_encryption_key env fs st).1).1.encryption_key = some k := by
  rw [load_encryption_key_read env st hkf hro]
  refine ⟨rfl, rfl, ?_⟩
  rw [load_encryption_key_read env2 _ hkf hro2]

/-- C6 witness: a concrete key file read twice yields the same key both
times and leaves the file untouched. -/
theorem c6_key_load_idempotent_witness :
    (load_encryption_key ⟨true, [], true⟩ ⟨some [5], none⟩
      ⟨PyValue.pydict [], none⟩).1.encryption_key = some [5] ∧
    (load_encryption_key ⟨true, [], true⟩ ⟨some [5], none⟩
      ⟨PyValue.pydict [], none⟩).2 = ⟨some [5], none⟩ ∧
    (load_encryption_key ⟨true, [], true⟩
      (load_encryption_key ⟨true, [], true⟩ ⟨some [5], none⟩
        ⟨PyValue.pydict [], none⟩).2
      (load_encryption_key ⟨true, [], true⟩ ⟨some [5], none⟩
        ⟨PyValue.pydict [], none⟩).1).1.encryption_key = some [5] :=
  c6_key_load_idempotent ⟨true, [], true⟩ ⟨true, [], true⟩ ⟨some [5], none⟩
    ⟨PyValue.pydict [], none⟩ [5] rfl rfl rfl

/-- C7 counterexample: the claim that no credential-cache operation ever
propagates an exception is refuted by `has_credentials`: a credentials file
holding a valid encryption of the JSON document "[1]" loads successfully
(so `_credentials` becomes a list, not a dict), and the subsequent
`has_credentials()` call raises `AttributeError` at line 87 — `list.get`
does not exist — outside any `try`, propagating to the caller. -/
theorem c7_counterexample :
    (has_credentialsE (load_credentials ⟨true⟩
      ⟨some [1], some (fernetEncrypt [1] (encodeStr ("[1]".data)))⟩
      ⟨PyValue.pydict [], some [1]⟩)).isOk = false := rfl

/-- C7 (amended): the three store operations `_load_encryption_key`,
`_load_credentials` and `save_credentials` never propagate an exception:
under every input, fault environment and store state their
exception-explicit semantics return normally.  `has_credentials` returns
normally whenever the cached record is a dict (as after construction and
after every save), but not in general: a load of a validly encrypted
non-dict JSON document leaves a non-dict cached value on which it
raises. -/
theorem c7_no_exception_amended (kenv : KeyLoadEnv) (lenv : CredLoadEnv)
    (wout : WriteOutcome) (u p : String) (fs : FS) (st : Uploader) :
    (load_encryption_keyE kenv fs st).isOk = true ∧
    (load_credentialsE lenv fs st).isOk = true ∧
    (save_credentialsE kenv wout u p fs st).isOk = true ∧
    (∀ m, st.credentials = PyValue.pydict m → (has_credentialsE st).isOk = true) :=
  ⟨pyRun_isOk _ _, pyRun_isOk _ _, pyRun_isOk _ _, fun m hm => by
    unfold has_credentialsE
    rw [hm]
    rfl⟩

/-- C7 witness: concrete instances of the amended guarantees. -/
theorem c7_no_exception_amended_witness :
    (load_encryption_keyE ⟨true, [1], true⟩ ⟨none, none⟩
      ⟨PyValue.pydict [], none⟩).isOk = true ∧
    (has_credentialsE ⟨PyValue.pydict [], none⟩).isOk = true :=
  ⟨(c7_no_exception_amended ⟨true, [1], true⟩ ⟨true⟩ WriteOutcome.ok "a" "b"
      ⟨none, none⟩ ⟨PyValue.pydict [], none⟩).1,
   (c7_no_exception_amended ⟨true, [1], true⟩ ⟨true⟩ WriteOutcome.ok "a" "b"
      ⟨none, none⟩ ⟨PyValue.pydict [], none⟩).2.2.2 [] rfl⟩

/-- C2: at the fresh-construction in-memory state (empty record — the only
state `_load_credentials` is invoked from, its sole call site being
`__init__`), the load ends with an empty in-memory record and no escaping
exception whenever the credentials file does not exist, the key is
unavailable (falsy), the file read raises, the ciphertext fails
authenticated decryption under the current key — including any single-byte
corruption of a stored ciphertext and a ciphertext written under a previous
key different from the current one — or the decrypted bytes fail to decode
or to parse as JSON. -/
theorem c2_load_absent_on_failure (lenv : CredLoadEnv) (fs : FS) (st : Uploader)
    (hstart : st.credentials = PyValue.pydict [])
    (hfail :
      fs.credFile = none ∨
      keyTruthy st.encryption_key = false ∨
      lenv.readOk = false ∨
      (∃ data key, fs.credFile = some data ∧ st.encryption_key = some key ∧
        fernetDecrypt key data = none) ∨
      (∃ key pt i b, st.encryption_key = some key ∧
        fs.credFile = some ((fernetEncrypt key pt).set i b) ∧
        i < (fernetEncrypt key pt).length ∧ b ≠ (fernetEncrypt key pt).getD i 0) ∨
      (∃ kold pt, fs.credFile = some (fernetEncrypt kold pt) ∧
        st.encryption_key ≠ some kold) ∨
      (∃ data key pt, fs.credFile = some data ∧ st.encryption_key = some key ∧
        fernetDecrypt key data = some pt ∧ decodeBytes pt = none) ∨
      (∃ data key pt chars, fs.credFile = some data ∧ st.encryption_key = some key ∧
        fernetDecrypt key data = some pt ∧ decodeBytes pt = some chars ∧
        pyLoads chars = none)) :
    (load_credentials lenv fs st).credentials = PyValue.pydict [] ∧
    (load_credentialsE lenv fs st).isOk = true := by
  refine ⟨?_, pyRun_isOk _ _⟩
  apply load_credentials_creds_empty lenv fs st hstart
  intro data key hcf hk hkt hro
  rcases hfail with h | h | h | h | h | h | h | h
  · rw [hcf] at h
    cases h
  · rw [hk] at h
    rw [h] at hkt
    cases hkt
  · rw [hro] at h
    cases h
  · obtain ⟨d, k2, hcf2, hk2, hdec⟩ := h
    rw [hcf] at hcf2
    obtain rfl : data = d := Option.some.inj hcf2
    rw [hk] at hk2
    obtain rfl : key = k2 := Option.some.inj hk2
    simp [loadChain, hdec]
  · obtain ⟨k2, pt, i, b, hk2, hcf2, hi, hb⟩ := h
    rw [hk] at hk2
    obtain rfl : key = k2 := Option.some.inj hk2
    rw [hcf] at hcf2
    obtain rfl : data = (fernetEncrypt key pt).set i b := Option.some.inj hcf2
    simp [loadChain, fernetDecrypt_set hi hb]
  · obtain ⟨kold, pt, hcf2, hkne⟩ := h
    rw [hcf] at hcf2
    obtain rfl : data = fernetEncrypt kold pt := Option.some.inj hcf2
    have hne : key ≠ kold := by
      intro he
      exact hkne (he ▸ hk)
    simp [loadChain, fernetDecrypt_wrong_key hne]
  · obtain ⟨d, k2, pt, hcf2, hk2, hdec, hdecode⟩ := h
    rw [hcf] at hcf2
    obtain rfl : data = d := Option.some.inj hcf2
    rw [hk] at hk2
    obtain rfl : key = k2 := Option.some.inj hk2
    simp [loadChain, hdec, hdecode]
  · obtain ⟨d, k2, pt, chars, hcf2, hk2, hdec, hdecode, hparse⟩ := h
    rw [hcf] at hcf2
    obtain rfl : data = d := Option.some.inj hcf2
    rw [hk] at hk2
    obtain rfl : key = k2 := Option.some.inj hk2
    simp [loadChain, hdec, hdecode, hparse]

/-- C2 witness: a load at fresh-construction state with no credentials file
ends with an empty record and no escaping exception. -/
theorem c2_load_absent_on_failure_witness :
    (load_credentials ⟨true⟩ ⟨some [1], none⟩
      ⟨PyValue.pydict [], some [1]⟩).credentials = PyValue.pydict [] ∧
    (load_credentialsE ⟨true⟩ ⟨some [1], none⟩
      ⟨PyValue.pydict [], some [1]⟩).isOk = true :=
  c2_load_absent_on_failure ⟨true⟩ ⟨some [1], none⟩
    ⟨PyValue.pydict [], some [1]⟩ rfl (Or.inl rfl)

/-- C9 (amended): when the credentials file is absent or the key is
unavailable, `_load_credentials` leaves the whole state unchanged — it does
not clear a previously cached record; otherwise the record is reset to
empty exactly on the exception path (read, decrypt, decode or parse
failure) or set to the parsed value, which is also an empty record in the
one case where the file validly decodes to the empty JSON object. -/
theorem c9_load_frame_amended (lenv : CredLoadEnv) (fs : FS) (st : Uploader) :
    ((fs.credFile = none ∨ keyTruthy st.encryption_key = false) →
      load_credentials lenv fs st = st) ∧
    (∀ data key, fs.credFile = some data → st.encryption_key = some key →
      keyTruthy (some key) = true →
      (load_credentials lenv fs st).credentials =
        ((if lenv.readOk = true then loadChain key data else none).getD
          (PyValue.pydict []))) := by
  refine ⟨fun h => load_credentials_skip lenv h, fun data key hcf hk hkt => ?_⟩
  rw [load_credentials_run lenv hcf hk hkt]

/-- C9 counterexample: a credentials file holding a valid encryption of the
empty JSON object makes the load reset a previously cached non-empty record
to empty although the whole decrypt–decode–parse chain succeeds, i.e. not
on the exception path. -/
theorem c9_counterexample :
    (⟨strRecord (credRecord "a" "b"), some [1]⟩ : Uploader).credentials ≠
      PyValue.pydict [] ∧
    loadChain [1] (fernetEncrypt [1] (encodeStr ("\x7b\x7d".data))) =
      some (PyValue.pydict []) ∧
    (load_credentials ⟨true⟩
      ⟨some [1], some (fernetEncrypt [1] (encodeStr ("\x7b\x7d".data)))⟩
      ⟨strRecord (credRecord "a" "b"), some [1]⟩).credentials =
      PyValue.pydict [] := by
  refine ⟨?_, rfl, rfl⟩
  simp [strRecord, credRecord]

/-- C9 witness: with no credentials file, a load leaves a previously cached
record untouched. -/
theorem c9_load_frame_amended_witness :
    load_credentials ⟨true⟩ ⟨some [1], none⟩
      ⟨strRecord (credRecord "a" "b"), some [1]⟩ =
      ⟨strRecord (credRecord "a" "b"), some [1]⟩ :=
  (c9_load_frame_amended ⟨true⟩ ⟨some [1], none⟩
    ⟨strRecord (credRecord "a" "b"), some [1]⟩).1 (Or.inl rfl)

/-- C5 (amended): `has_credentials` is false in every state reached before
any save and before any successful construction-time load (in particular on
a fresh construction with no credentials file), and is true immediately
after any `save_credentials` call with non-empty username and password that
returns true (non-emptiness is required: a successful save of empty strings
leaves `has_credentials` false). -/
theorem c5_presence_amended :
    (∀ kenv lenv fs, (¬ ∃ data key m, fs.credFile = some data ∧
        (load_encryption_key kenv fs
          ⟨PyValue.pydict [], none⟩).1.encryption_key = some key ∧
        keyTruthy (some key) = true ∧ lenv.readOk = true ∧
        loadChain key data = some m) →
      has_credentialsE (initUploader kenv lenv fs).1 = Except.ok false) ∧
    (∀ kenv wout u p fs st, ¬ u = "" → ¬ p = "" →
      (save_credentials kenv wout u p fs st).1 = true →
      has_credentialsE (save_credentials kenv wout u p fs st).2.1 =
        Except.ok true) := by
  constructor
  · intro kenv lenv fs h
    exact has_cred_of_emptyDict _ (init_creds_of_no_success kenv lenv fs h)
  · intro kenv wout u p fs st hu hp _
    exact has_cred_of_credRecord _ u p
      (save_credentials_mem kenv wout u p fs st) hu hp

/-- C5 counterexample: `save_credentials("", "")` returns true while
`has_credentials` is false immediately afterwards, refuting "returns true
in the state immediately after any save_credentials call that returns
true". -/
theorem c5_counterexample :
    (save_credentials ⟨true, [1], true⟩ WriteOutcome.ok "" "" ⟨some [1], none⟩
      ⟨PyValue.pydict [], some [1]⟩).1 = true ∧
    has_credentialsE (save_credentials ⟨true, [1], true⟩ WriteOutcome.ok "" ""
      ⟨some [1], none⟩ ⟨PyValue.pydict [], some [1]⟩).2.1 = Except.ok false :=
  ⟨rfl, rfl⟩

/-- C5 witness: a fresh construction over an empty filesystem reports no
credentials; a successful save of a concrete non-empty pair reports
credentials. -/
theorem c5_presence_amended_witness :
    has_credentialsE (initUploader ⟨true, [1], true⟩ ⟨true⟩ ⟨none, none⟩).1 =
      Except.ok false ∧
    has_credentialsE (save_credentials ⟨true, [1], true⟩ WriteOutcome.ok "a" "b"
      ⟨some [1], none⟩ ⟨PyValue.pydict [], some [1]⟩).2.1 = Except.ok true := by
  constructor
  · apply c5_presence_amended.1
    rintro ⟨data, key, m, hcf, -⟩
    exact Option.noConfusion hcf
  · exact c5_presence_amended.2 ⟨true, [1], true⟩ WriteOutcome.ok "a" "b"
      ⟨some [1], none⟩ ⟨PyValue.pydict [], some [1]⟩ (by decide) (by decide) rfl

/-- C3 (amended): `save_credentials` returns true iff the key step yields a
usable key and the whole-file write completes; every failure yields a false
return rather than an exception; a failure at or before opening the
credentials file leaves the file unchanged, while a failure during writing
(after `open(.., "wb")` truncates) leaves the file holding a prefix of the
new ciphertext — the prior on-disk content is not preserved in that
case. -/
theorem c3_save_failure_amended (kenv : KeyLoadEnv) (wout : WriteOutcome)
    (u p : String) (fs : FS) (st : Uploader) :
    ((save_credentials kenv wout u p fs st).1 = true ↔
      (keyTruthy (ensuredKey kenv fs st) = true ∧ wout = WriteOutcome.ok)) ∧
    (save_credentialsE kenv wout u p fs st).isOk = true ∧
    (wout = WriteOutcome.openFail →
      (save_credentials kenv wout u p fs st).2.2.credFile = fs.credFile) ∧
    (∀ n, wout = WriteOutcome.writeFail n →
      (save_credentials kenv wout u p fs st).1 = false ∧
      ∀ key, ensuredKey kenv fs st = some key → keyTruthy (some key) = true →
        (save_credentials kenv wout u p fs st).2.2.credFile =
          some ((fernetEncrypt key (encodeStr (jsonDumps (credRecord u p)))).take n)) := by
  refine ⟨save_result_true_iff kenv wout u p fs st, pyRun_isOk _ _, ?_, ?_⟩
  · intro hw
    subst hw
    exact save_credFile_openFail kenv u p fs st
  · intro n hw
    subst hw
    constructor
    · cases hres : (save_credentials kenv (WriteOutcome.writeFail n) u p fs st).1
      · rfl
      · have h2 := (save_result_true_iff kenv (WriteOutcome.writeFail n) u p fs st).mp hres
        exact WriteOutcome.noConfusion h2.2
    · intro key hk hkt
      exact save_credFile_writeFail kenv u p fs st n key hk hkt

/-- C3 counterexample: a failure during the write (after open truncated the
file) returns false but leaves the credentials file truncated, so the prior
on-disk state is not left uncorrupted as the claim states. -/
theorem c3_counterexample :
    (save_credentials ⟨true, [1], true⟩ (WriteOutcome.writeFail 0) "a" "b"
        ⟨some [1], some [9, 9, 9]⟩ ⟨PyValue.pydict [], some [1]⟩).1 = false ∧
    (save_credentials ⟨true, [1], true⟩ (WriteOutcome.writeFail 0) "a" "b"
        ⟨some [1], some [9, 9, 9]⟩ ⟨PyValue.pydict [], some [1]⟩).2.2.credFile ≠
      (⟨some [1], some [9, 9, 9]⟩ : FS).credFile := by
  refine ⟨rfl, ?_⟩
  decide

/-- C3 witness: at a concrete state, an open failure leaves the stored file
unchanged, and with a usable key and a completing write the save returns
true. -/
theorem c3_save_failure_amended_witness :
    (save_credentials ⟨true, [1], true⟩ WriteOutcome.openFail "a" "b"
      ⟨some [1], some [7]⟩ ⟨PyValue.pydict [], some [1]⟩).2.2.credFile = some [7] ∧
    (save_credentials ⟨true, [1], true⟩ WriteOutcome.ok "a" "b"
      ⟨some [1], some [7]⟩ ⟨PyValue.pydict [], some [1]⟩).1 = true := by
  constructor
  · exact (c3_save_failure_amended ⟨true, [1], true⟩ WriteOutcome.openFail "a" "b"
      ⟨some [1], some [7]⟩ ⟨PyValue.pydict [], some [1]⟩).2.2.1 rfl
  · exact (c3_save_failure_amended ⟨true, [1], true⟩ WriteOutcome.ok "a" "b"
      ⟨some [1], some [7]⟩ ⟨PyValue.pydict [], some [1]⟩).1.mpr ⟨by decide, rfl⟩

/-- C8: `save_credentials` updates the in-memory record before encryption
and the file write: after every call, successful or not, the in-memory
record equals the new pair, and with non-empty inputs `has_credentials` is
then true even when the call returns false having persisted nothing (an
open failure leaves the credentials file untouched while save returns
false). -/
theorem c8_save_updates_memory_first (kenv : KeyLoadEnv) (wout : WriteOutcome)
    (u p : String) (fs : FS) (st : Uploader) :
    (save_credentials kenv wout u p fs st).2.1.credentials =
      strRecord (credRecord u p) ∧
    (¬ u = "" → ¬ p = "" →
      has_credentialsE (save_credentials kenv wout u p fs st).2.1 =
        Except.ok true) ∧
    (wout = WriteOutcome.openFail →
      (save_credentials kenv wout u p fs st).1 = false ∧
      (save_credentials kenv wout u p fs st).2.2.credFile = fs.credFile) := by
  refine ⟨save_credentials_mem kenv wout u p fs st, ?_, ?_⟩
  · intro hu hp
    exact has_cred_of_credRecord _ u p
      (save_credentials_mem kenv wout u p fs st) hu hp
  · intro hw
    subst hw
    refine ⟨?_, save_credFile_openFail kenv u p fs st⟩
    cases hres : (save_credentials kenv WriteOutcome.openFail u p fs st).1
    · rfl
    · have h2 := (save_result_true_iff kenv WriteOutcome.openFail u p fs st).mp hres
      exact WriteOutcome.noConfusion h2.2

/-- C8 witness: a concrete save that fails at the file open returns false,
leaves the file untouched, and still flips `has_credentials` to true. -/
theorem c8_save_updates_memory_first_witness :
    (save_credentials ⟨true, [1], true⟩ WriteOutcome.openFail "a" "b" ⟨some [1], none⟩
      ⟨PyValue.pydict [], some [1]⟩).1 = false ∧
    has_credentialsE (save_credentials ⟨true, [1], true⟩ WriteOutcome.openFail "a" "b"
      ⟨some [1], none⟩ ⟨PyValue.pydict [], some [1]⟩).2.1 = Except.ok true :=
  ⟨((c8_save_updates_memory_first ⟨true, [1], true⟩ WriteOutcome.openFail "a" "b"
      ⟨some [1], none⟩ ⟨PyValue.pydict [], some [1]⟩).2.2 rfl).1,
    (c8_save_updates_memory_first ⟨true, [1], true⟩ WriteOutcome.openFail "a" "b"
      ⟨some [1], none⟩ ⟨PyValue.pydict [], some [1]⟩).2.1 (by decide) (by decide)⟩

/-- C1 (amended): if `save_credentials(u, p)` returns true and the key it
used is persisted in the key file at return (as holds whenever the key was
loaded from the key file, or was generated with its key-file write
succeeding), then a fresh-process construction against the resulting key
and credentials files loads an in-memory record equal to the dict with
"username" mapped to u and "password" mapped to p.  The persistence proviso
is required: when the generation-time key-file write failed, save can still
return true while a fresh construction generates a new key and loads
nothing. -/
theorem c1_roundtrip_amended (kenv kenv2 : KeyLoadEnv) (lenv2 : CredLoadEnv)
    (wout : WriteOutcome) (u p : String) (fs : FS) (st : Uploader)
    (_hu : ¬ u = "") (_hp : ¬ p = "")
    (hok : (save_credentials kenv wout u p fs st).1 = true)
    (hpersist : (save_credentials kenv wout u p fs st).2.2.keyFile =
      (save_credentials kenv wout u p fs st).2.1.encryption_key)
    (hro : kenv2.readOk = true) (hro2 : lenv2.readOk = true) :
    (initUploader kenv2 lenv2
      (save_credentials kenv wout u p fs st).2.2).1.credentials =
      strRecord (credRecord u p) := by
  obtain ⟨hkt, hwok⟩ := (save_result_true_iff kenv wout u p fs st).mp hok
  subst hwok
  cases hek : ensuredKey kenv fs st with
  | none =>
    rw [hek] at hkt
    cases hkt
  | some key =>
    rw [hek] at hkt
    obtain ⟨hkey, hcf⟩ := save_ok_components kenv u p fs st key hek hkt
    have hkf2 : (save_credentials kenv WriteOutcome.ok u p fs st).2.2.keyFile =
        some key := by
      rw [hpersist, hkey]
    unfold initUploader
    dsimp only
    rw [load_encryption_key_read kenv2 ⟨PyValue.pydict [], none⟩ hkf2 hro]
    rw [load_credentials_run lenv2 hcf rfl hkt]
    rw [hro2]
    simp [loadChain_dumps key u p]

/-- C1 witness: a concrete save over a persisted key file followed by a
fresh construction reproduces the saved record. -/
theorem c1_roundtrip_amended_witness :
    (initUploader ⟨true, [2], true⟩ ⟨true⟩
      (save_credentials ⟨true, [9], true⟩ WriteOutcome.ok "a" "b" ⟨some [1], none⟩
        ⟨PyValue.pydict [], some [1]⟩).2.2).1.credentials =
      strRecord (credRecord "a" "b") :=
  c1_roundtrip_amended ⟨true, [9], true⟩ ⟨true, [2], true⟩ ⟨true⟩ WriteOutcome.ok
    "a" "b" ⟨some [1], none⟩ ⟨PyValue.pydict [], some [1]⟩ (by decide) (by decide)
    rfl rfl rfl rfl

/-- C1 counterexample: starting from an empty filesystem, the construction
generates a key whose key-file write fails; the subsequent
`save_credentials("a", "b")` against the same key file and credentials file
returns true, yet a fresh-process construction over the resulting files
(same paths) loads a record different from the saved pair — the round trip
of the claim fails. -/
theorem c1_counterexample :
    (save_credentials ⟨true, [1], false⟩ WriteOutcome.ok "a" "b"
        (initUploader ⟨true, [1], false⟩ ⟨true⟩ ⟨none, none⟩).2
        (initUploader ⟨true, [1], false⟩ ⟨true⟩ ⟨none, none⟩).1).1 = true ∧
    (initUploader ⟨true, [2], true⟩ ⟨true⟩
        (save_credentials ⟨true, [1], false⟩ WriteOutcome.ok "a" "b"
          (initUploader ⟨true, [1], false⟩ ⟨true⟩ ⟨none, none⟩).2
          (initUploader ⟨true, [1], false⟩ ⟨true⟩ ⟨none, none⟩).1).2.2).1.credentials ≠
      strRecord (credRecord "a" "b") := by
  refine ⟨rfl, ?_⟩
  have hval : (initUploader ⟨true, [2], true⟩ ⟨true⟩
      (save_credentials ⟨true, [1], false⟩ WriteOutcome.ok "a" "b"
        (initUploader ⟨true, [1], false⟩ ⟨true⟩ ⟨none, none⟩).2
        (initUploader ⟨true, [1], false⟩ ⟨true⟩ ⟨none, none⟩).1).2.2).1.credentials =
      PyValue.pydict [] := rfl
  rw [hval]
  simp [strRecord, credRecord]
